import Mathlib

/-!
Verification development for the browser extension content script
(`src/content.js`): a shallow embedding of its unit-conversion engine,
yank-sequence key router and toolbar-binding dispatch, with theorems
checking the natural-language specification against the code.

Modelling conventions:
* JS numbers are modelled by the rationals `ℚ` (the script only performs
  division, multiplication, rounding and fixed-point formatting on values
  parsed from decimal text, so no float-specific behaviour is relied on).
* `Math.round x` is `⌊x + 1/2⌋` (round half toward positive infinity),
  which is exactly the ECMAScript definition for finite arguments.
* DOM measurement cells are records carrying a stable identity, their
  current text and whether they sit on an angle row; the two per-cell
  WeakMaps become functions from identities to optional values.
* `String.prototype.toLowerCase` is modelled for the ASCII range, which
  covers every key string the script compares against.
-/

namespace Content

/-- JS whitespace characters relevant to `trim` and `parseFloat`
(space, tab, line feed, carriage return, vertical tab, form feed). -/
def isJsWs (ch : Char) : Bool :=
  ch = ' ' || ch = '\x09' || ch = '\x0a' || ch = '\x0d' || ch = '\x0b' || ch = '\x0c'

/-- `String.prototype.trim`: strip leading and trailing whitespace. -/
def jsTrim (s : String) : String :=
  ⟨((s.data.dropWhile isJsWs).reverse.dropWhile isJsWs).reverse⟩

/-- ASCII lower-casing of one character, as `toLowerCase` acts on the
key names compared by the script. -/
def charLower (ch : Char) : Char :=
  if 'A' ≤ ch ∧ ch ≤ 'Z' then Char.ofNat (ch.toNat + 32) else ch

/-- ASCII `String.prototype.toLowerCase`. -/
def strLower (s : String) : String := ⟨s.data.map charLower⟩

/-- Decimal digit character of `m % 10`. -/
def digChar (m : ℕ) : Char := Char.ofNat (48 + m % 10)

/-- Decimal digit list of a natural number, most significant first,
with structural fuel so that the kernel can evaluate it (the fuel is
never exhausted when it starts at the number itself). -/
def natDigitsAux : ℕ → ℕ → List Char
  | 0, n => [digChar n]
  | fuel + 1, n =>
    if n < 10 then [digChar n] else natDigitsAux fuel (n / 10) ++ [digChar (n % 10)]

/-- Decimal digit list of a natural number (most significant first),
as JS renders integral numbers into strings. -/
def natDigits (n : ℕ) : List Char := natDigitsAux n n

/-- Decimal rendering of a natural number. -/
def natToString (n : ℕ) : String := ⟨natDigits n⟩

/-- `hasPrefixChars pre l` holds when `pre` is an initial segment of `l`. -/
def hasPrefixChars : List Char → List Char → Bool
  | [], _ => true
  | _ :: _, [] => false
  | a :: as, b :: bs => a = b && hasPrefixChars as bs

/-- Does `needle` occur as a contiguous sublist of the second argument? -/
def hasSubList (needle : List Char) : List Char → Bool
  | [] => hasPrefixChars needle []
  | c :: rest => hasPrefixChars needle (c :: rest) || hasSubList needle rest

/-- JS `String.prototype.indexOf(needle) !== -1`. -/
def strContains (hay needle : String) : Bool := hasSubList needle.data hay.data

/-- JS `String.prototype.endsWith`. -/
def strEndsWith (s suffixStr : String) : Bool :=
  hasPrefixChars suffixStr.data.reverse s.data.reverse

/-- `Math.round` on a rational: floor of `x + 1/2` (ECMAScript rounds
half toward positive infinity). -/
def jsRound (q : ℚ) : ℤ := Rat.floor (q + 1/2)

/-- `Math.abs` on a rational. -/
def jsAbs (q : ℚ) : ℚ := if q < 0 then -q else q

/-- Value of a decimal digit character, if it is one
(used by the `parseFloat` model). -/
def digitVal (ch : Char) : Option ℕ :=
  if '0' ≤ ch ∧ ch ≤ '9' then some (ch.toNat - 48) else none

/-- Split a character list into its longest leading run of decimal digits
(as digit values) and the remainder. -/
def takeDigits : List Char → List ℕ × List Char
  | [] => ([], [])
  | ch :: rest =>
    match digitVal ch with
    | some v =>
      let r := takeDigits rest
      (v :: r.1, r.2)
    | none => ([], ch :: rest)

/-- Natural number denoted by a list of digit values, most significant first. -/
def digitsToNat (ds : List ℕ) : ℕ := ds.foldl (fun acc d => acc * 10 + d) 0

/-- Model of JS `parseFloat`: skip leading whitespace, then parse the
longest prefix of the form `[+-]? digits [. digits] [e[+-]digits]`,
returning `none` for `NaN`. Non-finite literals (`Infinity`) are not
modelled; the host page only ever shows finite decimal numerals. -/
def parseJsFloat (s : String) : Option ℚ :=
  let l := s.data.dropWhile isJsWs
  let sgnAndRest : ℚ × List Char :=
    match l with
    | '-' :: r => (-1, r)
    | '+' :: r => (1, r)
    | _ => (1, l)
  let d1 := takeDigits sgnAndRest.2
  let d2 : List ℕ × List Char :=
    match d1.2 with
    | '.' :: r => takeDigits r
    | _ => ([], d1.2)
  if d1.1 = [] ∧ d2.1 = [] then none
  else
    let mant : ℚ := (digitsToNat d1.1 : ℚ) + (digitsToNat d2.1 : ℚ) / (10 ^ d2.1.length)
    let expPart : ℤ :=
      match d2.2 with
      | 'e' :: r =>
        let esgnAndRest : ℤ × List Char :=
          match r with
          | '-' :: r2 => (-1, r2)
          | '+' :: r2 => (1, r2)
          | _ => (1, r)
        let eds := takeDigits esgnAndRest.2
        if eds.1 = [] then 0 else esgnAndRest.1 * digitsToNat eds.1
      | 'E' :: r =>
        let esgnAndRest : ℤ × List Char :=
          match r with
          | '-' :: r2 => (-1, r2)
          | '+' :: r2 => (1, r2)
          | _ => (1, r)
        let eds := takeDigits esgnAndRest.2
        if eds.1 = [] then 0 else esgnAndRest.1 * digitsToNat eds.1
      | _ => 0
    some (sgnAndRest.1 * mant * (10 : ℚ) ^ expPart)

/-- `Number.prototype.toFixed(3)` on a rational: sign, integer part and
exactly three fractional digits, rounding half away from zero
(`n` denotes the rounded count of thousandths of the magnitude). -/
def toFixed3 (q : ℚ) : String :=
  (if q < 0 then "-" else "") ++
    natToString ((jsRound (jsAbs q * 1000)).toNat / 1000) ++ "." ++
    (if (jsRound (jsAbs q * 1000)).toNat % 1000 < 10 then "00"
     else if (jsRound (jsAbs q * 1000)).toNat % 1000 < 100 then "0" else "") ++
    natToString ((jsRound (jsAbs q * 1000)).toNat % 1000)

/-- Fuelled body of the iterative Euclid loop in the `gcd` helper of
`content.js`; the fuel is never exhausted when it starts above the
second argument, which strictly decreases each iteration. -/
def gcdJsAux : ℕ → ℕ → ℕ → ℕ
  | 0, a, _ => a
  | fuel + 1, a, b => if b = 0 then a else gcdJsAux fuel b (a % b)

/-- The `gcd` helper of `content.js` (iterative Euclid on absolute values;
the script only ever calls it on naturals). -/
def gcdJs (a b : ℕ) : ℕ := gcdJsAux (b + 1) a b

/-- The precision denominators offered by the toolbar (`PRECISIONS`). -/
def PRECISIONS : List ℕ := [8, 16, 32]

/-- The arithmetic core of `mmToFractionalInches`: sign, feet, whole
inches and reduced fraction, before rendering. -/
structure FracParts where
  negative : Bool
  feet : ℕ
  inches : ℕ
  numerator : ℕ
  dispDenom : ℕ
deriving Repr, DecidableEq

/-- The `totalInches` local of `mmToFractionalInches`: the magnitude of
the input converted to inches. -/
def totalInchesOf (mm : ℚ) : ℚ := jsAbs (mm / (254/10))

/-- The `totalParts` local: the number of denominator-sized parts, from
rounding to the nearest part (nonnegative, so the `toNat` is exact). -/
def totalPartsOf (mm : ℚ) (denominator : ℕ) : ℕ :=
  (jsRound (totalInchesOf mm * denominator)).toNat

/-- The `wholeInches` local. -/
def wholeInchesOf (mm : ℚ) (denominator : ℕ) : ℕ :=
  totalPartsOf mm denominator / denominator

/-- The `numerator` local before fraction reduction. -/
def numerator0Of (mm : ℚ) (denominator : ℕ) : ℕ :=
  totalPartsOf mm denominator - wholeInchesOf mm denominator * denominator

/-- Steps 1 to 4 of `mmToFractionalInches`: convert to inches, round to
the nearest denominator part, split whole inches from the remainder,
reduce the fraction by the greatest common divisor when nonzero, and
optionally split off feet. -/
def fracParts (useFeet : Bool) (mm : ℚ) (denominator : ℕ) : FracParts :=
  { negative := mm / (254/10) < 0
    feet := if useFeet then wholeInchesOf mm denominator / 12 else 0
    inches := if useFeet then wholeInchesOf mm denominator % 12
              else wholeInchesOf mm denominator
    numerator :=
      if 0 < numerator0Of mm denominator then
        numerator0Of mm denominator / gcdJs (numerator0Of mm denominator) denominator
      else numerator0Of mm denominator
    dispDenom :=
      if 0 < numerator0Of mm denominator then
        denominator / gcdJs (numerator0Of mm denominator) denominator
      else denominator }

/-- Step 5 of `mmToFractionalInches`: assemble the display text from the
parts exactly as the `parts` array is pushed and joined in the source. -/
def renderParts (p : FracParts) : String :=
  (if p.negative then "-" else "") ++
  ((if 0 < p.feet then
      natToString p.feet ++ "\x27" ++
        (if 0 < p.inches ∨ 0 < p.numerator then " " else "")
    else "") ++
  ((if 0 < p.inches ∨ (p.feet = 0 ∧ p.numerator = 0) then
      natToString p.inches ++ (if 0 < p.numerator then " " else "\"")
    else "") ++
  (if 0 < p.numerator then
      natToString p.numerator ++ "/" ++ natToString p.dispDenom ++ "\""
    else "")))

/-- `mmToFractionalInches(mm, denominator)` with the global `useFeet`
flag passed explicitly. -/
def mmToFractionalInches (useFeet : Bool) (mm : ℚ) (denominator : ℕ) : String :=
  renderParts (fracParts useFeet mm denominator)

/-- The length in millimetres denoted by a rendered fractional-inch text,
read off its parts: sign, feet, whole inches and fraction, converted back
at 25.4 mm to the inch. -/
def fracPartsMm (p : FracParts) : ℚ :=
  (if p.negative then -1 else 1) *
    (((p.feet : ℚ) * 12 + (p.inches : ℚ) + (p.numerator : ℚ) / (p.dispDenom : ℚ)) * (254/10))

/-- One measurement-value cell (`.tcv_measure_val`): a stable identity
standing for DOM node identity, its current text content, and whether its
row is an angle row (`isAngleRow` in the source inspects the row header;
angle rows are never unit-converted). -/
structure Cell where
  id : ℕ
  text : String
  isAngle : Bool
deriving Repr, DecidableEq

/-- Point update of an identity-keyed side table (a WeakMap `set`). -/
def fset {α : Type} (f : ℕ → Option α) (k : ℕ) (v : α) : ℕ → Option α :=
  fun j => if j = k then some v else f j

/-- Point removal from an identity-keyed side table (a WeakMap `delete`). -/
def fdel {α : Type} (f : ℕ → Option α) (k : ℕ) : ℕ → Option α :=
  fun j => if j = k then none else f j

/-- The session state of the unit-conversion engine: the
`currentUnit` / `currentPrecision` / `useFeet` globals, the list of
measurement cells currently in the page, and the two WeakMaps
`cellMmCache` (cell to original mm value) and `cellTextCache`
(cell to last text written by the engine). -/
structure EngineState where
  currentUnit : String
  currentPrecision : ℕ
  useFeet : Bool
  cells : List Cell
  mmCache : ℕ → Option ℚ
  textCache : ℕ → Option String

/-- The display text for a tracked mm value under the current settings:
fractional inches in inch mode, fixed three decimals in mm mode. -/
def renderVal (unit : String) (prec : ℕ) (useFeet : Bool) (m : ℚ) : String :=
  if unit = "inch" then mmToFractionalInches useFeet m prec else toFixed3 m

/-- The overwrite check of `convertAllCells` for a tracked cell: the
live trimmed text no longer equals the last text the engine wrote. -/
def hostOverwrote (mc : ℕ → Option ℚ) (tc : ℕ → Option String) (c : Cell) : Prop :=
  (mc c.id).isSome = true ∧ tc c.id ≠ some (jsTrim c.text)

instance (mc : ℕ → Option ℚ) (tc : ℕ → Option String) (c : Cell) :
    Decidable (hostOverwrote mc tc c) :=
  inferInstanceAs (Decidable ((mc c.id).isSome = true ∧ tc c.id ≠ some (jsTrim c.text)))

/-- The mm cache after the overwrite check discards a stale entry. -/
def mcAfterDiscard (mc : ℕ → Option ℚ) (tc : ℕ → Option String) (c : Cell) :
    ℕ → Option ℚ :=
  if hostOverwrote mc tc c then fdel mc c.id else mc

/-- The last-written-text cache after the overwrite check discards a
stale entry. -/
def tcAfterDiscard (mc : ℕ → Option ℚ) (tc : ℕ → Option String) (c : Cell) :
    ℕ → Option String :=
  if hostOverwrote mc tc c then fdel tc c.id else tc

/-- The body of the `convertAllCells` loop for one cell: skip angle rows;
discard the cache entry when the live (trimmed) text no longer matches
the last written text; capture the original value by parsing when
untracked (skipping the cell when parsing fails); then write the
rendered text and record it as last written. -/
def processCell (unit : String) (prec : ℕ) (useFeet : Bool)
    (mc : ℕ → Option ℚ) (tc : ℕ → Option String) (c : Cell) :
    (ℕ → Option ℚ) × (ℕ → Option String) × Cell :=
  if c.isAngle then (mc, tc, c)
  else
    let mc1 := mcAfterDiscard mc tc c
    let tc1 := tcAfterDiscard mc tc c
    match mc1 c.id with
    | some m =>
      (mc1, fset tc1 c.id (renderVal unit prec useFeet m),
        { c with text := renderVal unit prec useFeet m })
    | none =>
      match parseJsFloat (jsTrim c.text) with
      | none => (mc1, tc1, c)
      | some p =>
        (fset mc1 c.id p, fset tc1 c.id (renderVal unit prec useFeet p),
          { c with text := renderVal unit prec useFeet p })

/-- The `convertAllCells` loop over the cell list, threading both caches. -/
def convGo (unit : String) (prec : ℕ) (useFeet : Bool)
    (mc : ℕ → Option ℚ) (tc : ℕ → Option String) :
    List Cell → (ℕ → Option ℚ) × (ℕ → Option String) × List Cell
  | [] => (mc, tc, [])
  | c :: cs =>
    let r := processCell unit prec useFeet mc tc c
    let rest := convGo unit prec useFeet r.1 r.2.1 cs
    (rest.1, rest.2.1, r.2.2 :: rest.2.2)

/-- `convertAllCells()`: one full conversion pass over the page. -/
def convertAllCells (s : EngineState) : EngineState :=
  let r := convGo s.currentUnit s.currentPrecision s.useFeet s.mmCache s.textCache s.cells
  { s with mmCache := r.1, textCache := r.2.1, cells := r.2.2 }

/-- The body of the `restoreAllCells` loop for one cell: when tracked,
write back the fixed-3-decimal mm text, record it as last written, and
drop the tracking entry. -/
def restoreCell (mc : ℕ → Option ℚ) (tc : ℕ → Option String) (c : Cell) :
    (ℕ → Option ℚ) × (ℕ → Option String) × Cell :=
  match mc c.id with
  | some m =>
    let mmText := toFixed3 m
    (fdel mc c.id, fset tc c.id mmText, { c with text := mmText })
  | none => (mc, tc, c)

/-- The `restoreAllCells` loop over the cell list. -/
def restoreGo (mc : ℕ → Option ℚ) (tc : ℕ → Option String) :
    List Cell → (ℕ → Option ℚ) × (ℕ → Option String) × List Cell
  | [] => (mc, tc, [])
  | c :: cs =>
    let r := restoreCell mc tc c
    let rest := restoreGo r.1 r.2.1 cs
    (rest.1, rest.2.1, r.2.2 :: rest.2.2)

/-- `restoreAllCells()`: write original mm text back into every tracked
cell and discard its cache entries. -/
def restoreAllCells (s : EngineState) : EngineState :=
  let r := restoreGo s.mmCache s.textCache s.cells
  { s with mmCache := r.1, textCache := r.2.1, cells := r.2.2 }

/-- UI side effects of the script, recorded rather than performed:
toasts, which-key panel changes, toolbar refreshes, poll-timer changes,
button clicks and clipboard writes (a copy records the text written and
the success toast message of its fire-and-forget continuation). -/
inductive Effect
  | toast (message : String) (isActive : Bool)
  | showWhichKeyMain
  | showWhichKeyBB
  | hideWhichKey
  | updateToolbar
  | startPoll
  | stopPoll
  | click (selector : String)
  | copy (text : String) (successMessage : String)
deriving Repr, DecidableEq

/-- `switchUnit(newUnit)`: no-op when unchanged; otherwise set the unit,
refresh the toolbar, and convert (entering inch mode, starting the
reconciliation poll) or restore (returning to mm, stopping it). -/
def switchUnit (newUnit : String) (s : EngineState) : EngineState × List Effect :=
  if newUnit = s.currentUnit then (s, [])
  else
    let s1 := { s with currentUnit := newUnit }
    if s1.currentUnit = "inch" then (convertAllCells s1, [.updateToolbar, .startPoll])
    else (restoreAllCells s1, [.updateToolbar, .stopPoll])

/-- A precision or feet-display change while the toolbar is in inch mode:
the click handlers of the precision buttons and of the feet toggle. -/
inductive EngineOp
  | setPrecision (d : ℕ)
  | toggleFeet

/-- Apply one toolbar operation: update the setting, refresh the toolbar
widget, and reconvert all cells (as both click handlers do). -/
def applyOp (s : EngineState) : EngineOp → EngineState
  | .setPrecision d => convertAllCells { s with currentPrecision := d }
  | .toggleFeet => convertAllCells { s with useFeet := !s.useFeet }

/-- Apply a sequence of precision / feet-display changes in order. -/
def applyOps (s : EngineState) (ops : List EngineOp) : EngineState :=
  ops.foldl applyOp s

/-- One row of a measurement panel, as the yank handlers read it: the
`th.tcv_measure_key` label, the values of its x/y/z coordinate cells and
of its single (non-axis) value cell when those cells are present.
Values stand for what `getCellValue` returns for the cell. -/
structure Row where
  label : String
  xVal : Option ℚ
  yVal : Option ℚ
  zVal : Option ℚ
  singleVal : Option ℚ
deriving Repr, DecidableEq

/-- The parts of the host page read by the key router: which toolbar
buttons exist, which button frames carry the active marker class
`tcv_btn_click2`, which measurement panels are visible and their rows. -/
structure Env where
  buttonPresent : String → Bool
  frameActive : String → Bool
  distVisible : Bool
  propVisible : Bool
  distRows : List Row
  propRows : List Row

/-- `findRowByLabel`: first row whose label contains the needle,
case-insensitively. -/
def findRowByLabel (rows : List Row) (labelMatch : String) : Option Row :=
  rows.find? fun r => strContains (strLower r.label) (strLower labelMatch)

/-- `copyCoords(row, label)`: copy the three coordinates as
`"x, y, z"` fixed to 3 decimals, or toast a failure when a coordinate
cell is missing. -/
def copyCoords (row : Row) (label : String) : List Effect :=
  match row.xVal, row.yVal, row.zVal with
  | some x, some y, some z =>
    let coords := toFixed3 x ++ ", " ++ toFixed3 y ++ ", " ++ toFixed3 z
    [.copy coords ("Copied " ++ label ++ ": " ++ coords)]
  | _, _, _ => [.toast "Could not find coordinates" false]

/-- `copySingleValue(row, label)`: copy the single value cell fixed to 3
decimals, or toast a failure when it is missing. -/
def copySingleValue (row : Row) (label : String) : List Effect :=
  match row.singleVal with
  | some v =>
    let text := toFixed3 v
    [.copy text ("Copied " ++ label ++ ": " ++ text)]
  | none => [.toast "Could not find value" false]

/-- `copySingleAxis(row, axis, label)`: copy one coordinate of a row. -/
def copySingleAxis (row : Row) (axis : String) (label : String) : List Effect :=
  let cell := if axis = "X" then row.xVal else if axis = "Y" then row.yVal else row.zVal
  match cell with
  | none => [.toast (axis ++ " not found") false]
  | some v =>
    let text := toFixed3 v
    [.copy text ("Copied " ++ label ++ " " ++ axis ++ ": " ++ text)]

/-- `getPrimaryRow()`: the distance row when the distance panel is
visible (possibly absent, non-coordinate), else the XYZ or Center row of
a visible properties panel (coordinate rows), else nothing. -/
def getPrimaryRow (env : Env) : Option (Option Row × String × Bool) :=
  if env.distVisible then
    some (findRowByLabel env.distRows "distance", "distance", false)
  else if env.propVisible then
    match findRowByLabel env.propRows "xyz" with
    | some r => some (some r, "XYZ", true)
    | none =>
      match findRowByLabel env.propRows "center" with
      | some r => some (some r, "Center", true)
      | none => none
  else none

/-- The handler for the primary yank `yy`. -/
def yankPrimary (env : Env) : List Effect :=
  match getPrimaryRow env with
  | none => [.toast "No panel visible" false]
  | some (none, _, _) => [.toast "No panel visible" false]
  | some (some r, label, true) => copyCoords r label
  | some (some r, label, false) => copySingleValue r label

/-- The handler for the single-axis yanks `yx` / `yc` / `yz`. -/
def yankAxis (axis : String) (env : Env) : List Effect :=
  match getPrimaryRow env with
  | some (some r, label, true) => copySingleAxis r axis label
  | _ => [.toast "No coordinates available" false]

/-- A yank handler that needs the properties panel and one of its rows. -/
def yankPropRow (rowMatch : String) (label : String) (single : Bool)
    (env : Env) : List Effect :=
  if env.propVisible then
    match findRowByLabel env.propRows rowMatch with
    | some row => if single then copySingleValue row label else copyCoords row label
    | none => [.toast (label ++ " not found") false]
  else [.toast "Properties panel not visible" false]

/-- A yank handler that needs the distance panel and one of its rows. -/
def yankDistRow (rowMatch : String) (label : String) (single : Bool)
    (env : Env) : List Effect :=
  if env.distVisible then
    match findRowByLabel env.distRows rowMatch with
    | some row => if single then copySingleValue row label else copyCoords row label
    | none => [.toast (label ++ " not found") false]
  else [.toast "Distance panel not visible" false]

/-- The `yankHandlers` table keyed by the character after `y`. -/
def yankHandlers : String → Option (Env → List Effect)
  | "y" => some yankPrimary
  | "x" => some (yankAxis "X")
  | "c" => some (yankAxis "Y")
  | "z" => some (yankAxis "Z")
  | "a" => some (yankPropRow "area" "Area" true)
  | "g" => some (yankPropRow "angle" "Angle" true)
  | "1" => some (yankDistRow "point 1" "Point 1" false)
  | "2" => some (yankDistRow "point 2" "Point 2" false)
  | "d" => some (yankDistRow "⇒" "Delta" false)
  | "n" => some (yankDistRow "angle" "Angle" true)
  | _ => none

/-- The `bbHandlers` table for the bounding-box submenu after `yb`. -/
def bbHandlers : String → Option (Env → List Effect)
  | "m" => some (yankPropRow "bb min" "BB min" false)
  | "c" => some (yankPropRow "bb center" "BB center" false)
  | "x" => some (yankPropRow "bb max" "BB max" false)
  | "s" => some (yankPropRow "bb size" "BB size" false)
  | _ => none

/-- The tri-valued result of `processYankSequence`: `true` (a command
ran), the string `"bb"` (show the bounding-box submenu), or `false`
(nothing matched yet / invalid). -/
inductive YankResult
  | completed
  | bbMenu
  | invalid
deriving Repr, DecidableEq

/-- The `b` branch of `processYankSequence`: an empty remainder shows
the bounding-box submenu, one further key dispatches a bb handler, and
anything longer is invalid. -/
def processYankB (env : Env) : List String → List Effect × YankResult
  | [] => ([], .bbMenu)
  | [k2] =>
    match bbHandlers k2 with
    | some h => (h env, .completed)
    | none => ([], .invalid)
  | _ => ([], .invalid)

/-- The non-`b` branch of `processYankSequence`: exactly one key after
the initiator dispatches a main handler, anything longer is invalid. -/
def processYankMain (env : Env) (k : String) : List String → List Effect × YankResult
  | [] =>
    match yankHandlers k with
    | some h => (h env, .completed)
    | none => ([], .invalid)
  | _ => ([], .invalid)

/-- `processYankSequence(seq)` over the keys typed after the initiating
`y`: the `b` submenu branch, then single-key main commands. -/
def processYankSequence (env : Env) : List String → List Effect × YankResult
  | [] => ([], .invalid)
  | k :: rest => if k = "b" then processYankB env rest else processYankMain env k rest

/-- One keyboard event as the router reads it: the key string, the
modifier flags and whether the event target is an editable control. -/
structure KeyEvent where
  key : String
  shiftKey : Bool
  ctrlKey : Bool
  altKey : Bool
  metaKey : Bool
  targetEditable : Bool
deriving Repr, DecidableEq

/-- The mutable state touched by the key router: the pending yank key
sequence with its last-keystroke time, and the conversion engine state. -/
structure RouterState where
  yankSequence : List String
  lastKeyTime : ℕ
  engine : EngineState

/-- One toolbar keybinding entry of the `KEYBINDINGS` registry. -/
structure Binding where
  key : String
  shift : Bool
  selector : String
  label : String
deriving Repr, DecidableEq

/-- The static `KEYBINDINGS` registry of `content.js`. -/
def KEYBINDINGS : List Binding :=
  [ ⟨"u", false, "input.tcv_button_distance", "Distance Measurement"⟩,
    ⟨"u", true,  "input.tcv_button_properties", "Properties"⟩,
    ⟨"0", false, "input.tcv_button_iso",    "Iso View"⟩,
    ⟨"1", false, "input.tcv_button_front",  "Front View"⟩,
    ⟨"2", false, "input.tcv_button_rear",   "Back View"⟩,
    ⟨"3", false, "input.tcv_button_top",    "Top View"⟩,
    ⟨"4", false, "input.tcv_button_bottom", "Bottom View"⟩,
    ⟨"5", false, "input.tcv_button_left",   "Left View"⟩,
    ⟨"6", false, "input.tcv_button_right",  "Right View"⟩ ]

/-- The lookup key `"shift+<key>"` / `"<key>"` of a binding. -/
def mapKeyOf (b : Binding) : String :=
  (if b.shift then "shift+" else "") ++ b.key

/-- The `KEY_MAP` lookup, built like the JS object (later entries with
the same map key would overwrite earlier ones). -/
def lookupBinding (k : String) : Option Binding :=
  KEYBINDINGS.foldl (fun acc b => if mapKeyOf b = k then some b else acc) none

/-- The camera-view test on a selector: the regex
`_(iso|front|rear|top|bottom|left|right)$`. -/
def selectorMatchesView (sel : String) : Bool :=
  ["_iso", "_front", "_rear", "_top", "_bottom", "_left", "_right"].any
    fun suf => strEndsWith sel suf

/-- `YANK_SEQUENCE_TIMEOUT_MS`. -/
def YANK_SEQUENCE_TIMEOUT_MS : ℕ := 1500

/-- JS `Array.prototype.indexOf` on the precision list. -/
def jsIndexOf (l : List ℕ) (x : ℕ) : ℤ :=
  match l.findIdx? (fun y => y = x) with
  | some i => (i : ℤ)
  | none => -1

/-- The part of `handleKeyDown` after the yank-sequence block: start a
new sequence on `y`, handle the unit and precision shortcuts, then the
static toolbar bindings (camera views toast a plain confirmation, other
buttons toast ON/OFF from the frame marker class). -/
def afterYank (env : Env) (ev : KeyEvent) (pressed : String) (now : ℕ)
    (st : RouterState) : RouterState × List Effect :=
  if pressed = "y" then
    ({ st with yankSequence := ["y"], lastKeyTime := now }, [.showWhichKeyMain])
  else if pressed = "i" ∧ ev.shiftKey = false then
    let r := switchUnit (if st.engine.currentUnit = "mm" then "inch" else "mm") st.engine
    ({ st with engine := r.1 },
      r.2 ++ [.toast ("Units: " ++ if r.1.currentUnit = "mm" then "mm" else "inches") true])
  else if pressed = "i" ∧ ev.shiftKey = true then
    if st.engine.currentUnit = "inch" then
      let idx := jsIndexOf PRECISIONS st.engine.currentPrecision
      let newPrec := PRECISIONS.getD ((idx + 1).toNat % PRECISIONS.length) 0
      ({ st with engine := convertAllCells { st.engine with currentPrecision := newPrec } },
        [.updateToolbar, .toast ("Precision: 1/" ++ natToString newPrec ++ "\"") true])
    else (st, [.toast "Switch to inches first (press I)" false])
  else
    match lookupBinding ((if ev.shiftKey then "shift+" else "") ++ pressed) with
    | none => (st, [])
    | some b =>
      if env.buttonPresent b.selector then
        if selectorMatchesView b.selector then
          (st, [.click b.selector, .toast b.label true])
        else
          let wasToggled := env.frameActive b.selector
          (st, [.click b.selector,
                .toast (b.label ++ if wasToggled then " ON" else " OFF") wasToggled])
      else (st, [.toast (b.label ++ " — toolbar not ready") false])

/-- `handleKeyDown(event)`: filter editable targets and held modifiers,
then continue / time out / start a yank sequence, falling through to the
unit shortcuts and toolbar bindings. -/
def handleKeyDown (env : Env) (ev : KeyEvent) (now : ℕ) (st : RouterState) :
    RouterState × List Effect :=
  if ev.targetEditable then (st, [])
  else if ev.ctrlKey || ev.altKey || ev.metaKey then (st, [])
  else
    let pressed := strLower ev.key
    if st.yankSequence ≠ [] then
      if YANK_SEQUENCE_TIMEOUT_MS ≤ now - st.lastKeyTime then
        let r := afterYank env ev pressed now { st with yankSequence := [] }
        (r.1, .hideWhichKey :: r.2)
      else
        let seq2 := st.yankSequence ++ [pressed]
        let st1 := { st with yankSequence := seq2, lastKeyTime := now }
        let seqAfterY := seq2.drop 1
        let r := processYankSequence env seqAfterY
        match r.2 with
        | .completed => ({ st1 with yankSequence := [] }, r.1 ++ [.hideWhichKey])
        | .bbMenu => (st1, r.1 ++ [.showWhichKeyBB])
        | .invalid =>
          if 2 ≤ seqAfterY.length then
            ({ st1 with yankSequence := [] },
              r.1 ++ [.hideWhichKey, .toast "Invalid yank sequence" false])
          else (st1, r.1)
    else afterYank env ev pressed now st

/-! ### Sample page content used by the concrete witnesses -/

/-- A tracked measurement cell whose live text the host has overwritten. -/
def cellA : Cell := ⟨0, "42.5", false⟩

/-- An engine state with one tracked cell whose text the host changed. -/
def engineC3 : EngineState :=
  ⟨"mm", 16, false, [cellA],
   fun j => if j = 0 then some 1 else none,
   fun j => if j = 0 then some "1.000" else none⟩

/-- An inch-mode engine state with a numeric and a non-numeric cell. -/
def engineC4 : EngineState :=
  ⟨"inch", 16, false, [⟨0, "12.7", false⟩, ⟨1, "abc", false⟩],
   fun _ => none, fun _ => none⟩

/-- An inch-mode engine state with one converted, tracked cell. -/
def engineC5 : EngineState :=
  ⟨"inch", 16, false, [⟨0, "1/2\"", false⟩],
   fun j => if j = 0 then some (127/10) else none,
   fun j => if j = 0 then some "1/2\"" else none⟩

/-- A fresh mm-mode engine state with no cells. -/
def engineMm : EngineState := ⟨"mm", 16, false, [], fun _ => none, fun _ => none⟩

/-- A page where every toolbar button exists, no frame is active and no
measurement panel is visible. -/
def sampleEnv : Env := ⟨fun _ => true, fun _ => false, false, false, [], []⟩

/-! ### Basic arithmetic and string lemmas -/

theorem jsAbs_eq_abs (q : ℚ) : jsAbs q = |q| := by
  unfold jsAbs
  split
  · exact (abs_of_neg (by assumption)).symm
  · exact (abs_of_nonneg (le_of_not_lt (by assumption))).symm

theorem jsRound_eq_floor (q : ℚ) : jsRound q = ⌊q + 1/2⌋ :=
  (Rat.floor_def' _).trans Rat.floor_def.symm

theorem gcdJsAux_eq (fuel : ℕ) : ∀ a b : ℕ, b < fuel → gcdJsAux fuel a b = Nat.gcd a b := by
  induction fuel with
  | zero => intro a b h; omega
  | succ f ih =>
    intro a b h
    unfold gcdJsAux
    by_cases hb : b = 0
    · simp [hb]
    · rw [if_neg hb, ih b (a % b) (by have := Nat.mod_lt a (Nat.pos_of_ne_zero hb); omega)]
      rw [Nat.gcd_comm b (a % b), ← Nat.gcd_rec b a, Nat.gcd_comm b a]

theorem gcdJs_eq (a b : ℕ) : gcdJs a b = Nat.gcd a b :=
  gcdJsAux_eq (b + 1) a b (Nat.lt_succ_self b)

theorem isJsWs_digChar (m : ℕ) : isJsWs (digChar m) = false := by
  unfold digChar
  have h : m % 10 < 10 := Nat.mod_lt _ (by norm_num)
  set k := m % 10 with hk
  interval_cases k <;> decide

theorem natDigitsAux_ne_nil (fuel n : ℕ) : natDigitsAux fuel n ≠ [] := by
  cases fuel with
  | zero => simp [natDigitsAux]
  | succ f =>
    unfold natDigitsAux
    split <;> simp

theorem mem_natDigitsAux (fuel : ℕ) :
    ∀ n ch, ch ∈ natDigitsAux fuel n → isJsWs ch = false := by
  induction fuel with
  | zero =>
    intro n ch hch
    simp only [natDigitsAux, List.mem_singleton] at hch
    subst hch
    exact isJsWs_digChar n
  | succ f ih =>
    intro n ch hch
    unfold natDigitsAux at hch
    split at hch
    · simp only [List.mem_singleton] at hch
      subst hch
      exact isJsWs_digChar n
    · simp only [List.mem_append, List.mem_singleton] at hch
      rcases hch with h | h
      · exact ih _ ch h
      · subst h
        exact isJsWs_digChar _

theorem natToString_ne_nil (n : ℕ) : (natToString n).data ≠ [] :=
  natDigitsAux_ne_nil n n

theorem mem_natToString (n : ℕ) :
    ∀ ch ∈ (natToString n).data, isJsWs ch = false :=
  mem_natDigitsAux n n

theorem strData_append (s t : String) : (s ++ t).data = s.data ++ t.data := rfl

theorem mem_of_head?_eq {α : Type} {l : List α} {a : α} (h : l.head? = some a) : a ∈ l := by
  cases l with
  | nil => simp at h
  | cons b t =>
    simp only [List.head?_cons, Option.some_inj] at h
    subst h
    exact List.mem_cons_self _ _

theorem mem_of_getLast?_eq {α : Type} {l : List α} {a : α} (h : l.getLast? = some a) :
    a ∈ l := by
  rw [← List.head?_reverse] at h
  exact List.mem_reverse.mp (mem_of_head?_eq h)

theorem dropWhile_eq_self_of_head {l : List Char}
    (h : ∀ ch, l.head? = some ch → isJsWs ch = false) :
    l.dropWhile isJsWs = l := by
  cases l with
  | nil => rfl
  | cons a t =>
    have ha : isJsWs a = false := h a rfl
    simp [List.dropWhile_cons, ha]

theorem jsTrim_eq_self (s : String)
    (h1 : ∀ ch, s.data.head? = some ch → isJsWs ch = false)
    (h2 : ∀ ch, s.data.getLast? = some ch → isJsWs ch = false) :
    jsTrim s = s := by
  have hL : s.data.dropWhile isJsWs = s.data := dropWhile_eq_self_of_head h1
  have hR : s.data.reverse.dropWhile isJsWs = s.data.reverse := by
    apply dropWhile_eq_self_of_head
    intro ch hch
    rw [List.head?_reverse] at hch
    exact h2 ch hch
  unfold jsTrim
  rw [hL, hR, List.reverse_reverse]

theorem head?_data_append_left (s t : String) (h : s.data ≠ []) :
    (s ++ t).data.head? = s.data.head? := by
  rw [strData_append]
  exact List.head?_append_of_ne_nil _ h

theorem head?_data_append_right (s t : String) (h : s.data = []) :
    (s ++ t).data.head? = t.data.head? := by
  rw [strData_append, h, List.nil_append]

theorem getLast?_data_append_right (s t : String) (h : t.data ≠ []) :
    (s ++ t).data.getLast? = t.data.getLast? := by
  rw [strData_append]
  exact List.getLast?_append_of_ne_nil _ h

theorem getLast?_data_append_left (s t : String) (h : t.data = []) :
    (s ++ t).data.getLast? = s.data.getLast? := by
  rw [strData_append, h, List.append_nil]

theorem jsTrim_toFixed3 (q : ℚ) : jsTrim (toFixed3 q) = toFixed3 q := by
  have hB := natToString_ne_nil ((jsRound (jsAbs q * 1000)).toNat / 1000)
  have hE := natToString_ne_nil ((jsRound (jsAbs q * 1000)).toNat % 1000)
  apply jsTrim_eq_self
  · intro ch hch
    unfold toFixed3 at hch
    rw [head?_data_append_left, head?_data_append_left, head?_data_append_left] at hch
    · by_cases hq : q < 0
      · rw [if_pos hq] at hch
        rw [head?_data_append_left _ _ (by decide)] at hch
        simp only [List.head?_cons, Option.some_inj] at hch
        subst hch
        decide
      · rw [if_neg hq] at hch
        rw [head?_data_append_right _ _ (by rfl)] at hch
        exact mem_natToString _ ch (mem_of_head?_eq hch)
    · simp only [strData_append, ne_eq, List.append_eq_nil, not_and]
      intro _ h
      exact absurd h hB
    · simp only [strData_append, ne_eq, List.append_eq_nil, not_and]
      intro h
      exact absurd h.2 hB
    · simp only [strData_append, ne_eq, List.append_eq_nil, not_and]
      intro h
      exact absurd h.1.2 hB
  · intro ch hch
    unfold toFixed3 at hch
    rw [getLast?_data_append_right _ _ hE] at hch
    exact mem_natToString _ ch (mem_of_getLast?_eq hch)

theorem jsTrim_renderParts (p : FracParts) : jsTrim (renderParts p) = renderParts p := by
  apply jsTrim_eq_self
  · intro ch hch
    unfold renderParts at hch
    by_cases hneg : p.negative = true
    · rw [if_pos hneg, head?_data_append_left _ _ (by decide)] at hch
      simp only [List.head?_cons, Option.some_inj] at hch
      subst hch
      decide
    · rw [if_neg hneg, head?_data_append_right _ _ (by rfl)] at hch
      by_cases hf : 0 < p.feet
      · rw [if_pos hf] at hch
        rw [head?_data_append_left, head?_data_append_left,
          head?_data_append_left _ _ (natToString_ne_nil _)] at hch
        · exact mem_natToString _ ch (mem_of_head?_eq hch)
        · simp [strData_append, natToString_ne_nil]
        · simp [strData_append, natToString_ne_nil]
      · rw [if_neg hf, head?_data_append_right _ _ (by rfl)] at hch
        by_cases hc : 0 < p.inches ∨ (p.feet = 0 ∧ p.numerator = 0)
        · rw [if_pos hc] at hch
          rw [head?_data_append_left, head?_data_append_left _ _ (natToString_ne_nil _)] at hch
          · exact mem_natToString _ ch (mem_of_head?_eq hch)
          · simp [strData_append, natToString_ne_nil]
        · rw [if_neg hc, head?_data_append_right _ _ (by rfl)] at hch
          have hn : 0 < p.numerator := by
            rcases Nat.eq_zero_or_pos p.numerator with h0 | h0
            · exact absurd (Or.inr ⟨Nat.eq_zero_of_not_pos hf, h0⟩) hc
            · exact h0
          rw [if_pos hn] at hch
          rw [head?_data_append_left, head?_data_append_left,
            head?_data_append_left _ _ (natToString_ne_nil _)] at hch
          · exact mem_natToString _ ch (mem_of_head?_eq hch)
          · simp [strData_append, natToString_ne_nil]
          · simp [strData_append, natToString_ne_nil]
  · intro ch hch
    unfold renderParts at hch
    by_cases hn : 0 < p.numerator
    · rw [if_pos hn, if_pos hn] at hch
      rw [getLast?_data_append_right, getLast?_data_append_right,
        getLast?_data_append_right, getLast?_data_append_right _ "\"" (by decide)] at hch
      · have hm := mem_of_getLast?_eq hch
        simp at hm
        subst hm
        decide
      · simp [strData_append, natToString_ne_nil]
      · simp [strData_append, natToString_ne_nil]
      · simp [strData_append, natToString_ne_nil]
    · rw [if_neg hn, if_neg hn] at hch
      by_cases hc : 0 < p.inches ∨ (p.feet = 0 ∧ p.numerator = 0)
      · rw [if_pos hc] at hch
        rw [getLast?_data_append_right, getLast?_data_append_right,
          getLast?_data_append_left _ "" (by rfl),
          getLast?_data_append_right _ "\"" (by decide)] at hch
        · have hm := mem_of_getLast?_eq hch
          simp at hm
          subst hm
          decide
        · simp [strData_append, natToString_ne_nil]
        · simp [strData_append, natToString_ne_nil]
      · rw [if_neg hc] at hch
        have hf : 0 < p.feet := by
          rcases Nat.eq_zero_or_pos p.feet with h0 | h0
          · exact absurd (Or.inr ⟨h0, Nat.eq_zero_of_not_pos hn⟩) hc
          · exact h0
        have hni : ¬(0 < p.inches ∨ 0 < p.numerator) := by
          rintro (h | h)
          · exact hc (Or.inl h)
          · exact hn h
        rw [if_pos hf, if_neg hni] at hch
        rw [getLast?_data_append_right, getLast?_data_append_left _ ("" ++ "") (by rfl),
          getLast?_data_append_left _ "" (by rfl),
          getLast?_data_append_right _ "\x27" (by decide)] at hch
        · have hm := mem_of_getLast?_eq hch
          simp at hm
          subst hm
          decide
        · simp [strData_append, natToString_ne_nil]

theorem jsTrim_renderVal (u : String) (prec : ℕ) (uf : Bool) (m : ℚ) :
    jsTrim (renderVal u prec uf m) = renderVal u prec uf m := by
  unfold renderVal mmToFractionalInches
  split
  · exact jsTrim_renderParts _
  · exact jsTrim_toFixed3 m

/-! ### C1 -/

/-- C1 counterexample: with feet display off, `mmToFractionalInches`
applied to 12.7 mm at denominator 16 returns `1/2"`, not `0 1/2"` — the
zero whole-inch segment is omitted when a fraction is present. -/
theorem claim_C1_counterexample :
    mmToFractionalInches false (127/10) 16 = "1/2\"" ∧
    mmToFractionalInches false (127/10) 16 ≠ "0 1/2\"" := by
  constructor
  · with_unfolding_all decide
  · with_unfolding_all decide

/-- C1 (amended): with feet display off, `mmToFractionalInches(12.7, 16)`
returns exactly the text `1/2"` — the reduced fraction with the inch
mark and no zero whole-inch segment, which the renderer omits whenever a
fractional part is present. -/
theorem claim_C1 : mmToFractionalInches false (127/10) 16 = "1/2\"" := by
  with_unfolding_all decide

/-! ### Fractional-inch arithmetic facts -/

theorem fracParts_negative (uf : Bool) (mm : ℚ) (d : ℕ) :
    (fracParts uf mm d).negative = decide (mm / (254/10) < 0) := rfl

theorem fracParts_feet (uf : Bool) (mm : ℚ) (d : ℕ) :
    (fracParts uf mm d).feet = if uf then wholeInchesOf mm d / 12 else 0 := rfl

theorem fracParts_inches (uf : Bool) (mm : ℚ) (d : ℕ) :
    (fracParts uf mm d).inches =
      if uf then wholeInchesOf mm d % 12 else wholeInchesOf mm d := rfl

theorem fracParts_numerator (uf : Bool) (mm : ℚ) (d : ℕ) :
    (fracParts uf mm d).numerator =
      if 0 < numerator0Of mm d then numerator0Of mm d / gcdJs (numerator0Of mm d) d
      else numerator0Of mm d := rfl

theorem fracParts_dispDenom (uf : Bool) (mm : ℚ) (d : ℕ) :
    (fracParts uf mm d).dispDenom =
      if 0 < numerator0Of mm d then d / gcdJs (numerator0Of mm d) d else d := rfl

theorem numerator0_eq_mod (mm : ℚ) (d : ℕ) :
    numerator0Of mm d = totalPartsOf mm d % d := by
  unfold numerator0Of wholeInchesOf
  have h := Nat.mod_add_div (totalPartsOf mm d) d
  rw [Nat.mul_comm d (totalPartsOf mm d / d)] at h
  exact Nat.sub_eq_of_eq_add h.symm

theorem fracParts_num_lt (uf : Bool) (mm : ℚ) (d : ℕ) (hd : 0 < d) :
    (fracParts uf mm d).numerator = 0 ∨
      (fracParts uf mm d).numerator < (fracParts uf mm d).dispDenom := by
  rw [fracParts_numerator, fracParts_dispDenom]
  by_cases h0 : 0 < numerator0Of mm d
  · right
    rw [if_pos h0, if_pos h0]
    have hlt : numerator0Of mm d < d := by
      rw [numerator0_eq_mod]
      exact Nat.mod_lt _ hd
    have hg := gcdJs_eq (numerator0Of mm d) d
    have hgd : gcdJs (numerator0Of mm d) d ∣ d := by
      rw [hg]
      exact Nat.gcd_dvd_right _ _
    exact Nat.div_lt_div_of_lt_of_dvd hgd hlt
  · left
    rw [if_neg h0]
    omega

theorem fracParts_value (uf : Bool) (mm : ℚ) (d : ℕ) (hd : 0 < d) :
    ((fracParts uf mm d).feet : ℚ) * 12 + ((fracParts uf mm d).inches : ℚ) +
      ((fracParts uf mm d).numerator : ℚ) / ((fracParts uf mm d).dispDenom : ℚ) =
      (totalPartsOf mm d : ℚ) / (d : ℚ) := by
  have hdQ : (d : ℚ) ≠ 0 := Nat.cast_ne_zero.mpr hd.ne'
  have hfi : ((fracParts uf mm d).feet : ℚ) * 12 + ((fracParts uf mm d).inches : ℚ)
      = (wholeInchesOf mm d : ℚ) := by
    rw [fracParts_feet, fracParts_inches]
    cases uf
    · simp
    · simp only [if_pos]
      have hN : wholeInchesOf mm d / 12 * 12 + wholeInchesOf mm d % 12
          = wholeInchesOf mm d := by omega
      exact_mod_cast hN
  have hnum : ((fracParts uf mm d).numerator : ℚ) / ((fracParts uf mm d).dispDenom : ℚ)
      = (numerator0Of mm d : ℚ) / (d : ℚ) := by
    rw [fracParts_numerator, fracParts_dispDenom]
    by_cases h0 : 0 < numerator0Of mm d
    · rw [if_pos h0, if_pos h0]
      have hg := gcdJs_eq (numerator0Of mm d) d
      have hdv1 : gcdJs (numerator0Of mm d) d ∣ numerator0Of mm d := by
        rw [hg]
        exact Nat.gcd_dvd_left _ _
      have hdv2 : gcdJs (numerator0Of mm d) d ∣ d := by
        rw [hg]
        exact Nat.gcd_dvd_right _ _
      have hgpos : 0 < gcdJs (numerator0Of mm d) d := by
        rw [hg]
        exact Nat.gcd_pos_of_pos_right _ hd
      have hgQ : (gcdJs (numerator0Of mm d) d : ℚ) ≠ 0 := Nat.cast_ne_zero.mpr hgpos.ne'
      rw [Nat.cast_div hdv1 hgQ, Nat.cast_div hdv2 hgQ, div_div_div_cancel_right₀ hgQ]
    · rw [if_neg h0, if_neg h0]
  rw [hnum, hfi]
  rw [numerator0_eq_mod, eq_div_iff hdQ]
  unfold wholeInchesOf
  field_simp
  have hN : totalPartsOf mm d / d * d + totalPartsOf mm d % d = totalPartsOf mm d := by
    have h := Nat.mod_add_div (totalPartsOf mm d) d
    rw [Nat.mul_comm d (totalPartsOf mm d / d)] at h
    omega
  exact_mod_cast hN

theorem fracPartsMm_eq (uf : Bool) (mm : ℚ) (d : ℕ) (hd : 0 < d) :
    fracPartsMm (fracParts uf mm d) =
      (if mm / (254/10) < 0 then -1 else 1) *
        ((totalPartsOf mm d : ℚ) / (d : ℚ) * (254/10)) := by
  unfold fracPartsMm
  rw [fracParts_value uf mm d hd, fracParts_negative]
  simp only [decide_eq_true_eq]

/-! ### C7 and C8 -/

/-- C7: for every millimetre value and every denominator in {8, 16, 32},
the rendered fractional-inch text is exactly the rendering of its
(sign, feet, inches, fraction) parts, and interpreting those parts back
as a length in millimetres approximates the input to within half of
`25.4 / d` mm. -/
theorem claim_C7 (uf : Bool) (v : ℚ) (d : ℕ) (hd : d ∈ PRECISIONS) :
    mmToFractionalInches uf v d = renderParts (fracParts uf v d) ∧
    |fracPartsMm (fracParts uf v d) - v| ≤ (254/10) / (d : ℚ) / 2 := by
  have hd0 : 0 < d := by
    simp only [PRECISIONS, List.mem_cons, List.not_mem_nil, or_false] at hd
    rcases hd with rfl | rfl | rfl <;> norm_num
  have hdQ : (0 : ℚ) < (d : ℚ) := by exact_mod_cast hd0
  refine ⟨rfl, ?_⟩
  set T := totalInchesOf v with hT
  have hTnn : 0 ≤ T := by
    rw [hT]
    unfold totalInchesOf
    rw [jsAbs_eq_abs]
    exact abs_nonneg _
  have htpZ : 0 ≤ jsRound (T * d) := by
    rw [jsRound_eq_floor]
    apply Int.floor_nonneg.mpr
    have : 0 ≤ T * d := mul_nonneg hTnn (by positivity)
    linarith
  have hcast : ((totalPartsOf v d : ℕ) : ℚ) = ((jsRound (T * d) : ℤ) : ℚ) := by
    unfold totalPartsOf
    rw [← hT]
    exact_mod_cast congrArg (fun z : ℤ => (z : ℚ)) (Int.toNat_of_nonneg htpZ)
  have h1 : ((jsRound (T * d) : ℤ) : ℚ) ≤ T * d + 1/2 := by
    rw [jsRound_eq_floor]
    exact Int.floor_le _
  have h2 : T * d + 1/2 - 1 < ((jsRound (T * d) : ℤ) : ℚ) := by
    rw [jsRound_eq_floor]
    exact Int.sub_one_lt_floor _
  have hbound : |((totalPartsOf v d : ℕ) : ℚ) - T * d| ≤ 1/2 := by
    rw [hcast, abs_le]
    constructor <;> linarith
  have hpos : (0 : ℚ) < (254/10) / (d : ℚ) := by positivity
  rw [fracPartsMm_eq uf v d hd0]
  by_cases hneg : v / (254/10) < 0
  · rw [if_pos hneg]
    have hTv : T * (254/10) = -v := by
      rw [hT]
      unfold totalInchesOf
      rw [jsAbs_eq_abs, abs_of_neg hneg, neg_mul, div_mul_cancel₀ v (by norm_num : (254/10 : ℚ) ≠ 0)]
    have key : (-1 : ℚ) * ((totalPartsOf v d : ℚ) / (d : ℚ) * (254/10)) - v
        = -((((totalPartsOf v d : ℕ) : ℚ) - T * d) * ((254/10) / (d : ℚ))) := by
      have hv : v = -(T * (254/10)) := by rw [hTv]; ring
      rw [hv]
      field_simp
      ring
    rw [key, abs_neg, abs_mul, abs_of_pos hpos]
    calc |((totalPartsOf v d : ℕ) : ℚ) - T * d| * ((254/10) / (d : ℚ))
        ≤ 1/2 * ((254/10) / (d : ℚ)) := mul_le_mul_of_nonneg_right hbound hpos.le
      _ = (254/10) / (d : ℚ) / 2 := by ring
  · rw [if_neg hneg]
    have hTv : T * (254/10) = v := by
      rw [hT]
      unfold totalInchesOf
      rw [jsAbs_eq_abs, abs_of_nonneg (le_of_not_lt hneg),
        div_mul_cancel₀ v (by norm_num : (254/10 : ℚ) ≠ 0)]
    have key : (1 : ℚ) * ((totalPartsOf v d : ℚ) / (d : ℚ) * (254/10)) - v
        = (((totalPartsOf v d : ℕ) : ℚ) - T * d) * ((254/10) / (d : ℚ)) := by
      rw [← hTv]
      field_simp
      ring
    rw [key, abs_mul, abs_of_pos hpos]
    calc |((totalPartsOf v d : ℕ) : ℚ) - T * d| * ((254/10) / (d : ℚ))
        ≤ 1/2 * ((254/10) / (d : ℚ)) := mul_le_mul_of_nonneg_right hbound hpos.le
      _ = (254/10) / (d : ℚ) / 2 := by ring

/-- C7 witness: the round-trip bound instantiated at 10 mm with
denominator 16. -/
theorem claim_C7_witness :
    (16 : ℕ) ∈ PRECISIONS ∧
    (mmToFractionalInches false 10 16 = renderParts (fracParts false 10 16) ∧
      |fracPartsMm (fracParts false 10 16) - 10| ≤ (254/10) / (16 : ℚ) / 2) :=
  ⟨by decide, claim_C7 false 10 16 (by decide)⟩

/-- C8: at the denominators the toolbar offers, a zero magnitude renders
as `0"`, and the fraction stored in the rendered parts always has
numerator zero (no fraction shown) or numerator strictly below the
displayed denominator — so text like `16/16"` is never produced; a value
rounding up to a whole unit carries into the whole-inch count instead. -/
theorem claim_C8 (uf : Bool) (d : ℕ) (hd : d ∈ PRECISIONS) :
    mmToFractionalInches uf 0 d = "0\"" ∧
    ∀ mm : ℚ, (fracParts uf mm d).numerator = 0 ∨
      (fracParts uf mm d).numerator < (fracParts uf mm d).dispDenom := by
  have hd0 : 0 < d := by
    simp only [PRECISIONS, List.mem_cons, List.not_mem_nil, or_false] at hd
    rcases hd with rfl | rfl | rfl <;> norm_num
  constructor
  · simp only [PRECISIONS, List.mem_cons, List.not_mem_nil, or_false] at hd
    rcases hd with rfl | rfl | rfl <;> cases uf <;> with_unfolding_all decide
  · intro mm
    exact fracParts_num_lt uf mm d hd0

/-- C8 witness: the zero rendering and fraction bound at denominator 16
with feet display off. -/
theorem claim_C8_witness :
    (16 : ℕ) ∈ PRECISIONS ∧
    (mmToFractionalInches false 0 16 = "0\"" ∧
      ∀ mm : ℚ, (fracParts false mm 16).numerator = 0 ∨
        (fracParts false mm 16).numerator < (fracParts false mm 16).dispDenom) :=
  ⟨by decide, claim_C8 false 16 (by decide)⟩

/-! ### Conversion-pass lemmas -/

theorem processCell_angle (u : String) (p : ℕ) (uf : Bool) (mc tc) (c : Cell)
    (hA : c.isAngle = true) : processCell u p uf mc tc c = (mc, tc, c) := by
  unfold processCell
  rw [if_pos hA]

theorem processCell_id (u : String) (p : ℕ) (uf : Bool) (mc tc) (c : Cell) :
    ((processCell u p uf mc tc c).2.2).id = c.id := by
  unfold processCell
  split
  · rfl
  · dsimp only
    cases hM : mcAfterDiscard mc tc c c.id with
    | some m => simp only [hM]
    | none =>
      simp only [hM]
      cases hP : parseJsFloat (jsTrim c.text) with
      | none => simp only [hP]
      | some pv => simp only [hP]

theorem processCell_frame (u : String) (p : ℕ) (uf : Bool) (mc tc) (c : Cell)
    (j : ℕ) (hj : j ≠ c.id) :
    (processCell u p uf mc tc c).1 j = mc j ∧ (processCell u p uf mc tc c).2.1 j = tc j := by
  have hm : mcAfterDiscard mc tc c j = mc j := by
    unfold mcAfterDiscard
    split
    · simp [fdel, hj]
    · rfl
  have ht : tcAfterDiscard mc tc c j = tc j := by
    unfold tcAfterDiscard
    split
    · simp [fdel, hj]
    · rfl
  unfold processCell
  split
  · exact ⟨rfl, rfl⟩
  · dsimp only
    cases hM : mcAfterDiscard mc tc c c.id with
    | some m =>
      simp only [hM]
      exact ⟨hm, by simp [fset, hj, ht]⟩
    | none =>
      simp only [hM]
      cases hP : parseJsFloat (jsTrim c.text) with
      | none =>
        simp only [hP]
        exact ⟨hm, ht⟩
      | some pv =>
        simp only [hP]
        exact ⟨by simp [fset, hj, hm], by simp [fset, hj, ht]⟩

theorem processCell_steady (u : String) (p : ℕ) (uf : Bool) (mc tc) (c : Cell) (m : ℚ)
    (hA : c.isAngle = false) (hm : mc c.id = some m)
    (ht : tc c.id = some (jsTrim c.text)) (htext : c.text = renderVal u p uf m) :
    processCell u p uf mc tc c = (mc, tc, c) := by
  have hno : ¬ hostOverwrote mc tc c := by
    rintro ⟨_, h2⟩
    exact h2 ht
  have hmc1 : mcAfterDiscard mc tc c = mc := by
    unfold mcAfterDiscard
    rw [if_neg hno]
  have htc1 : tcAfterDiscard mc tc c = tc := by
    unfold tcAfterDiscard
    rw [if_neg hno]
  unfold processCell
  rw [if_neg (by simp [hA])]
  simp only [hmc1, htc1, hm]
  simp only [Prod.mk.injEq]
  refine ⟨trivial, ?_, ?_⟩
  · funext j
    by_cases hj : j = c.id
    · subst hj
      simp [fset, ht, htext, jsTrim_renderVal]
    · simp [fset, hj]
  · cases c with
    | mk i t a =>
      simp only at htext
      rw [htext]

theorem processCell_skip (u : String) (p : ℕ) (uf : Bool) (mc tc) (c : Cell)
    (hA : c.isAngle = false) (hm : mc c.id = none)
    (hP : parseJsFloat (jsTrim c.text) = none) :
    processCell u p uf mc tc c = (mc, tc, c) := by
  have hno : ¬ hostOverwrote mc tc c := by
    rintro ⟨h1, _⟩
    rw [hm] at h1
    simp at h1
  have hmc1 : mcAfterDiscard mc tc c = mc := by
    unfold mcAfterDiscard
    rw [if_neg hno]
  have htc1 : tcAfterDiscard mc tc c = tc := by
    unfold tcAfterDiscard
    rw [if_neg hno]
  unfold processCell
  rw [if_neg (by simp [hA])]
  simp only [hmc1, htc1, hm, hP]

theorem processCell_overwritten (u : String) (p : ℕ) (uf : Bool) (mc tc) (c : Cell)
    (hA : c.isAngle = false) (hov : hostOverwrote mc tc c) :
    (processCell u p uf mc tc c).1 c.id = parseJsFloat (jsTrim c.text) := by
  have hmid : mcAfterDiscard mc tc c c.id = none := by
    unfold mcAfterDiscard
    rw [if_pos hov]
    simp [fdel]
  unfold processCell
  rw [if_neg (by simp [hA])]
  simp only [hmid]
  cases hP : parseJsFloat (jsTrim c.text) with
  | none => exact hmid
  | some pv => simp [fset]

theorem processCell_stable (u : String) (p : ℕ) (uf : Bool) (mc tc mc' tc') (c : Cell)
    (hm : mc' c.id = (processCell u p uf mc tc c).1 c.id)
    (ht : tc' c.id = (processCell u p uf mc tc c).2.1 c.id) :
    processCell u p uf mc' tc' ((processCell u p uf mc tc c).2.2)
      = (mc', tc', (processCell u p uf mc tc c).2.2) := by
  by_cases hA : c.isAngle = true
  · rw [processCell_angle u p uf mc tc c hA]
    exact processCell_angle u p uf mc' tc' c hA
  · simp only [Bool.not_eq_true] at hA
    cases hM : mcAfterDiscard mc tc c c.id with
    | some m =>
      have hr : processCell u p uf mc tc c =
          (mcAfterDiscard mc tc c,
           fset (tcAfterDiscard mc tc c) c.id (renderVal u p uf m),
           { c with text := renderVal u p uf m }) := by
        unfold processCell
        rw [if_neg (by simp [hA])]
        simp only [hM]
      rw [hr] at hm ht ⊢
      dsimp only at hm ht ⊢
      rw [hM] at hm
      simp [fset] at ht
      exact processCell_steady u p uf mc' tc' { c with text := renderVal u p uf m } m
        hA hm
        (by
          rw [show ({ c with text := renderVal u p uf m } : Cell).text
              = renderVal u p uf m from rfl, jsTrim_renderVal]
          exact ht)
        rfl
    | none =>
      cases hP : parseJsFloat (jsTrim c.text) with
      | none =>
        have hr : processCell u p uf mc tc c =
            (mcAfterDiscard mc tc c, tcAfterDiscard mc tc c, c) := by
          unfold processCell
          rw [if_neg (by simp [hA])]
          simp only [hM, hP]
        rw [hr] at hm ht ⊢
        dsimp only at hm ht ⊢
        rw [hM] at hm
        exact processCell_skip u p uf mc' tc' c hA hm hP
      | some pv =>
        have hr : processCell u p uf mc tc c =
            (fset (mcAfterDiscard mc tc c) c.id pv,
             fset (tcAfterDiscard mc tc c) c.id (renderVal u p uf pv),
             { c with text := renderVal u p uf pv }) := by
          unfold processCell
          rw [if_neg (by simp [hA])]
          simp only [hM, hP]
        rw [hr] at hm ht ⊢
        dsimp only at hm ht ⊢
        simp [fset] at hm ht
        exact processCell_steady u p uf mc' tc' { c with text := renderVal u p uf pv } pv
          hA hm
          (by
            rw [show ({ c with text := renderVal u p uf pv } : Cell).text
                = renderVal u p uf pv from rfl, jsTrim_renderVal]
            exact ht)
          rfl


theorem convGo_ids (u : String) (p : ℕ) (uf : Bool) (mc tc) (cs : List Cell) :
    (convGo u p uf mc tc cs).2.2.map Cell.id = cs.map Cell.id := by
  induction cs generalizing mc tc with
  | nil => rfl
  | cons c cs ih =>
    simp only [convGo, List.map_cons]
    rw [processCell_id, ih]

theorem convGo_frame (u : String) (p : ℕ) (uf : Bool) (mc tc) (cs : List Cell) (j : ℕ)
    (hj : j ∉ cs.map Cell.id) :
    (convGo u p uf mc tc cs).1 j = mc j ∧ (convGo u p uf mc tc cs).2.1 j = tc j := by
  induction cs generalizing mc tc with
  | nil => exact ⟨rfl, rfl⟩
  | cons c cs ih =>
    simp only [List.map_cons, List.mem_cons, not_or] at hj
    obtain ⟨hj1, hj2⟩ := hj
    simp only [convGo]
    obtain ⟨h1, h2⟩ := processCell_frame u p uf mc tc c j hj1
    obtain ⟨h3, h4⟩ := ih _ _ hj2
    exact ⟨h3.trans h1, h4.trans h2⟩

theorem convGo_append (u : String) (p : ℕ) (uf : Bool) (mc tc) (l1 l2 : List Cell) :
    convGo u p uf mc tc (l1 ++ l2) =
      ((convGo u p uf (convGo u p uf mc tc l1).1 (convGo u p uf mc tc l1).2.1 l2).1,
       (convGo u p uf (convGo u p uf mc tc l1).1 (convGo u p uf mc tc l1).2.1 l2).2.1,
       (convGo u p uf mc tc l1).2.2 ++
         (convGo u p uf (convGo u p uf mc tc l1).1 (convGo u p uf mc tc l1).2.1 l2).2.2) := by
  induction l1 generalizing mc tc with
  | nil => rfl
  | cons c l1 ih =>
    simp only [List.cons_append, convGo, List.append_eq]
    rw [ih]

theorem convGo_idem (u : String) (p : ℕ) (uf : Bool) (mc tc) (cs : List Cell)
    (hnd : (cs.map Cell.id).Nodup) :
    convGo u p uf (convGo u p uf mc tc cs).1 (convGo u p uf mc tc cs).2.1
        (convGo u p uf mc tc cs).2.2 = convGo u p uf mc tc cs := by
  induction cs generalizing mc tc with
  | nil => rfl
  | cons c cs ih =>
    simp only [List.map_cons, List.nodup_cons] at hnd
    obtain ⟨hc1, hc2⟩ := hnd
    simp only [convGo]
    have hfr := convGo_frame u p uf (processCell u p uf mc tc c).1
      (processCell u p uf mc tc c).2.1 cs c.id hc1
    have hst := processCell_stable u p uf mc tc
      (convGo u p uf (processCell u p uf mc tc c).1 (processCell u p uf mc tc c).2.1 cs).1
      (convGo u p uf (processCell u p uf mc tc c).1 (processCell u p uf mc tc c).2.1 cs).2.1
      c hfr.1 hfr.2
    rw [hst]
    dsimp only
    rw [ih _ _ hc2]

/-! ### C3 and C4 -/

/-- C3: during a conversion pass, a tracked non-angle cell whose live
trimmed text no longer matches the recorded last-written text has its
cache entry discarded, and the new mm value (if any) is the parse of the
new live text, never the stale entry. -/
theorem claim_C3 (s : EngineState) (c : Cell)
    (hnd : (s.cells.map Cell.id).Nodup) (hc : c ∈ s.cells)
    (hang : c.isAngle = false) (htr : (s.mmCache c.id).isSome = true)
    (hdiff : s.textCache c.id ≠ some (jsTrim c.text)) :
    (convertAllCells s).mmCache c.id = parseJsFloat (jsTrim c.text) := by
  obtain ⟨pre, post, hsplit⟩ := List.append_of_mem hc
  have hnd' := hnd
  rw [hsplit, List.map_append, List.map_cons] at hnd'
  have hmid := List.nodup_middle.mp hnd'
  rw [List.nodup_cons, List.mem_append] at hmid
  push_neg at hmid
  obtain ⟨⟨hpre, hpost⟩, _⟩ := hmid
  unfold convertAllCells
  dsimp only
  rw [hsplit, convGo_append]
  simp only [convGo]
  rw [(convGo_frame _ _ _ _ _ post c.id hpost).1]
  have hov : hostOverwrote
      (convGo s.currentUnit s.currentPrecision s.useFeet s.mmCache s.textCache pre).1
      (convGo s.currentUnit s.currentPrecision s.useFeet s.mmCache s.textCache pre).2.1 c := by
    constructor
    · rw [(convGo_frame _ _ _ _ _ pre c.id hpre).1]
      exact htr
    · rw [(convGo_frame _ _ _ _ _ pre c.id hpre).2]
      exact hdiff
  exact processCell_overwritten _ _ _ _ _ _ hang hov

/-- C3 witness: a page with one tracked cell whose live text `42.5` no
longer matches the recorded last-written text `1.000`; the pass captures
the parse of the new text. -/
theorem claim_C3_witness :
    (engineC3.cells.map Cell.id).Nodup ∧ cellA ∈ engineC3.cells ∧
    cellA.isAngle = false ∧ (engineC3.mmCache cellA.id).isSome = true ∧
    engineC3.textCache cellA.id ≠ some (jsTrim cellA.text) ∧
    (convertAllCells engineC3).mmCache cellA.id = parseJsFloat (jsTrim cellA.text) :=
  ⟨by decide, by decide, rfl, by with_unfolding_all decide, by with_unfolding_all decide,
   claim_C3 engineC3 cellA (by decide) (by decide) rfl
     (by with_unfolding_all decide) (by with_unfolding_all decide)⟩

/-- C4: a second `convertAllCells` pass immediately after a first one,
with no host mutation in between, changes nothing: every cell text, both
caches and all settings are identical after both passes. -/
theorem claim_C4 (s : EngineState) (hnd : (s.cells.map Cell.id).Nodup) :
    convertAllCells (convertAllCells s) = convertAllCells s := by
  unfold convertAllCells
  dsimp only
  rw [convGo_idem s.currentUnit s.currentPrecision s.useFeet s.mmCache s.textCache s.cells hnd]

/-- C4 witness: idempotence of the conversion pass on a concrete page
with a numeric cell and a non-numeric cell. -/
theorem claim_C4_witness :
    (engineC4.cells.map Cell.id).Nodup ∧
    convertAllCells (convertAllCells engineC4) = convertAllCells engineC4 :=
  ⟨by decide, claim_C4 engineC4 (by decide)⟩

/-! ### Restore-pass lemmas -/

theorem restoreCell_frame (mc tc) (c : Cell) (j : ℕ) (hj : j ≠ c.id) :
    (restoreCell mc tc c).1 j = mc j ∧ (restoreCell mc tc c).2.1 j = tc j := by
  unfold restoreCell
  cases hm : mc c.id with
  | some m =>
    simp only [hm]
    exact ⟨by simp [fdel, hj], by simp [fset, hj]⟩
  | none =>
    simp [hm]

theorem restoreGo_mm_none (mc tc) (cs : List Cell) (j : ℕ) (h : mc j = none) :
    (restoreGo mc tc cs).1 j = none := by
  induction cs generalizing mc tc with
  | nil => exact h
  | cons c cs ih =>
    simp only [restoreGo]
    apply ih
    unfold restoreCell
    cases hm : mc c.id with
    | some m =>
      simp only [hm]
      by_cases hj : j = c.id
      · simp [fdel, hj]
      · simp [fdel, hj, h]
    | none =>
      simp only [hm]
      exact h

theorem restoreGo_mem_none (mc tc) (cs : List Cell) (c : Cell) (hc : c ∈ cs) :
    (restoreGo mc tc cs).1 c.id = none := by
  induction cs generalizing mc tc with
  | nil => cases hc
  | cons c0 cs ih =>
    simp only [restoreGo]
    rcases List.mem_cons.mp hc with heq | hmem
    · subst heq
      apply restoreGo_mm_none
      unfold restoreCell
      cases hm : mc c.id with
      | some m =>
        simp only [hm]
        simp [fdel]
      | none =>
        simp only [hm]
    · exact ih _ _ hmem

theorem restoreGo_cells (cs : List Cell) : ∀ (mc tc), (cs.map Cell.id).Nodup →
    (restoreGo mc tc cs).2.2 = cs.map (fun c =>
      match mc c.id with
      | some m => { c with text := toFixed3 m }
      | none => c) := by
  induction cs with
  | nil =>
    intro mc tc _
    rfl
  | cons c cs ih =>
    intro mc tc hnd
    simp only [List.map_cons, List.nodup_cons] at hnd
    obtain ⟨hc1, hc2⟩ := hnd
    simp only [restoreGo, List.map_cons]
    have hhead : (restoreCell mc tc c).2.2 = (match mc c.id with
        | some m => { c with text := toFixed3 m }
        | none => c) := by
      unfold restoreCell
      cases hm : mc c.id with
      | some m => simp only [hm]
      | none => simp only [hm]
    rw [hhead, ih _ _ hc2]
    congr 1
    apply List.map_congr_left
    intro c2 hc2m
    have hne : c2.id ≠ c.id := by
      intro he
      exact hc1 (he ▸ List.mem_map_of_mem Cell.id hc2m)
    rw [(restoreCell_frame mc tc c c2.id hne).1]

theorem applyOp_unit (s : EngineState) (op : EngineOp) :
    (applyOp s op).currentUnit = s.currentUnit := by
  cases op <;> rfl

theorem applyOps_unit (ops : List EngineOp) : ∀ s : EngineState,
    (applyOps s ops).currentUnit = s.currentUnit := by
  induction ops with
  | nil =>
    intro s
    rfl
  | cons op ops ih =>
    intro s
    exact (ih (applyOp s op)).trans (applyOp_unit s op)

/-! ### C5 -/

/-- C5: after any sequence of precision and feet-display changes in inch
mode, switching back to mm writes, for every cell in the page, its
tracked original value fixed to three decimals (cells without a tracked
value are untouched), and afterwards no cell in the page has a cached
original value. -/
theorem claim_C5 (s : EngineState) (ops : List EngineOp)
    (hunit : s.currentUnit = "inch")
    (hops : ∀ op ∈ ops, match op with
      | EngineOp.setPrecision d => d ∈ PRECISIONS
      | EngineOp.toggleFeet => True)
    (hnd : ((applyOps s ops).cells.map Cell.id).Nodup) :
    (switchUnit "mm" (applyOps s ops)).1.cells =
      (applyOps s ops).cells.map (fun c =>
        match (applyOps s ops).mmCache c.id with
        | some m => { c with text := toFixed3 m }
        | none => c) ∧
    ∀ c ∈ (switchUnit "mm" (applyOps s ops)).1.cells,
      (switchUnit "mm" (applyOps s ops)).1.mmCache c.id = none := by
  have htu : (applyOps s ops).currentUnit = "inch" := (applyOps_unit ops s).trans hunit
  have hne : ("mm" : String) ≠ (applyOps s ops).currentUnit := by
    rw [htu]
    decide
  have hsw : (switchUnit "mm" (applyOps s ops)).1
      = restoreAllCells { applyOps s ops with currentUnit := "mm" } := by
    unfold switchUnit
    rw [if_neg hne]
    rw [if_neg (fun h => (by decide : ¬ ("mm" : String) = "inch") h)]
  rw [hsw]
  unfold restoreAllCells
  dsimp only
  constructor
  · exact restoreGo_cells _ _ _ hnd
  · intro c hc
    rw [restoreGo_cells _ _ _ hnd] at hc
    obtain ⟨c2, hc2, rfl⟩ := List.mem_map.mp hc
    have hid : (match (applyOps s ops).mmCache c2.id with
        | some m => { c2 with text := toFixed3 m }
        | none => c2).id = c2.id := by
      cases (applyOps s ops).mmCache c2.id <;> rfl
    rw [hid]
    exact restoreGo_mem_none _ _ _ _ hc2

/-- C5 witness: a concrete inch-mode page with one tracked cell and the
empty sequence of setting changes. -/
theorem claim_C5_witness :
    engineC5.currentUnit = "inch" ∧
    (∀ op ∈ ([] : List EngineOp), match op with
      | EngineOp.setPrecision d => d ∈ PRECISIONS
      | EngineOp.toggleFeet => True) ∧
    ((applyOps engineC5 []).cells.map Cell.id).Nodup ∧
    ((switchUnit "mm" (applyOps engineC5 [])).1.cells =
      (applyOps engineC5 []).cells.map (fun c =>
        match (applyOps engineC5 []).mmCache c.id with
        | some m => { c with text := toFixed3 m }
        | none => c) ∧
     ∀ c ∈ (switchUnit "mm" (applyOps engineC5 [])).1.cells,
       (switchUnit "mm" (applyOps engineC5 [])).1.mmCache c.id = none) :=
  ⟨rfl, fun op h => absurd h (List.not_mem_nil op), by decide,
   claim_C5 engineC5 [] rfl (fun op h => absurd h (List.not_mem_nil op)) (by decide)⟩

/-! ### C2, C6, C9 and C10 -/

/-- C2 counterexample: from an idle router, pressing `y` (state becomes
collecting with sequence `["y"]`) and then `q` 500 ms later produces no
effect at all — no invalid-sequence toast — and leaves the sequence
collecting as `["y", "q"]` rather than returning to idle. -/
theorem claim_C2_counterexample :
    (handleKeyDown sampleEnv ⟨"q", false, false, false, false, false⟩ 1500
        ⟨["y"], 1000, engineMm⟩).2 = [] ∧
    (handleKeyDown sampleEnv ⟨"q", false, false, false, false, false⟩ 1500
        ⟨["y"], 1000, engineMm⟩).1.yankSequence = ["y", "q"] := by
  constructor
  · with_unfolding_all decide
  · with_unfolding_all decide

/-- C2 (amended): after `y`, a key that matches no main yank command and
is not `b` is consumed silently — no toast, sequence keeps collecting —
and the invalid-sequence toast with the reset to idle happens only on
the next keydown within the timeout, once two keys follow the
initiator. -/
theorem claim_C2 (env env2 : Env) (ev ev2 : KeyEvent) (t1 t2 : ℕ) (st : RouterState)
    (hed : ev.targetEditable = false) (hct : ev.ctrlKey = false) (hal : ev.altKey = false)
    (hmt : ev.metaKey = false)
    (hed2 : ev2.targetEditable = false) (hct2 : ev2.ctrlKey = false)
    (hal2 : ev2.altKey = false) (hmt2 : ev2.metaKey = false)
    (hseq : st.yankSequence = ["y"])
    (ht1 : t1 - st.lastKeyTime < YANK_SEQUENCE_TIMEOUT_MS)
    (hk : yankHandlers (strLower ev.key) = none)
    (hb : strLower ev.key ≠ "b")
    (ht2 : t2 - t1 < YANK_SEQUENCE_TIMEOUT_MS) :
    (handleKeyDown env ev t1 st).2 = [] ∧
    (handleKeyDown env ev t1 st).1 =
      { st with yankSequence := ["y", strLower ev.key], lastKeyTime := t1 } ∧
    handleKeyDown env2 ev2 t2 (handleKeyDown env ev t1 st).1 =
      ({ st with yankSequence := [], lastKeyTime := t2 },
       [Effect.hideWhichKey, Effect.toast "Invalid yank sequence" false]) := by
  have hnt1 : ¬(YANK_SEQUENCE_TIMEOUT_MS ≤ t1 - st.lastKeyTime) := Nat.not_le.mpr ht1
  have hnt2 : ¬(YANK_SEQUENCE_TIMEOUT_MS ≤ t2 - t1) := Nat.not_le.mpr ht2
  have h1 : handleKeyDown env ev t1 st
      = ({ st with yankSequence := ["y", strLower ev.key], lastKeyTime := t1 }, []) := by
    simp [handleKeyDown, hed, hct, hal, hmt, hseq, hnt1, processYankSequence,
      processYankMain, hb, hk]
  have h2 : handleKeyDown env2 ev2 t2
        ({ st with yankSequence := ["y", strLower ev.key], lastKeyTime := t1 })
      = ({ st with yankSequence := [], lastKeyTime := t2 },
         [Effect.hideWhichKey, Effect.toast "Invalid yank sequence" false]) := by
    simp [handleKeyDown, hed2, hct2, hal2, hmt2, hnt2, processYankSequence,
      processYankMain, hb]
  refine ⟨by rw [h1], by rw [h1], ?_⟩
  rw [h1]
  exact h2

/-- C2 witness: `y` at 1000 ms, `q` at 1500 ms (silent, still
collecting), then `w` at 2000 ms triggering the invalid toast. -/
theorem claim_C2_witness :
    ((⟨"q", false, false, false, false, false⟩ : KeyEvent).targetEditable = false ∧
     (⟨["y"], 1000, engineMm⟩ : RouterState).yankSequence = ["y"] ∧
     1500 - (⟨["y"], 1000, engineMm⟩ : RouterState).lastKeyTime < YANK_SEQUENCE_TIMEOUT_MS ∧
     yankHandlers (strLower "q") = none ∧ strLower "q" ≠ "b" ∧
     2000 - 1500 < YANK_SEQUENCE_TIMEOUT_MS) ∧
    ((handleKeyDown sampleEnv ⟨"q", false, false, false, false, false⟩ 1500
        ⟨["y"], 1000, engineMm⟩).2 = [] ∧
     (handleKeyDown sampleEnv ⟨"q", false, false, false, false, false⟩ 1500
        ⟨["y"], 1000, engineMm⟩).1 =
       { (⟨["y"], 1000, engineMm⟩ : RouterState) with
           yankSequence := ["y", strLower "q"], lastKeyTime := 1500 } ∧
     handleKeyDown sampleEnv ⟨"w", false, false, false, false, false⟩ 2000
        (handleKeyDown sampleEnv ⟨"q", false, false, false, false, false⟩ 1500
          ⟨["y"], 1000, engineMm⟩).1 =
       ({ (⟨["y"], 1000, engineMm⟩ : RouterState) with
            yankSequence := [], lastKeyTime := 2000 },
        [Effect.hideWhichKey, Effect.toast "Invalid yank sequence" false])) :=
  ⟨⟨rfl, rfl, by decide, rfl, by decide, by decide⟩,
   claim_C2 sampleEnv sampleEnv ⟨"q", false, false, false, false, false⟩
     ⟨"w", false, false, false, false, false⟩ 1500 2000 ⟨["y"], 1000, engineMm⟩
     rfl rfl rfl rfl rfl rfl rfl rfl rfl (by decide) rfl (by decide) (by decide)⟩

/-- C6: when more than the yank timeout has elapsed since the initiating
keystroke, the next keydown resets the sequence (hiding the hint panel,
with no toast from the reset) and is then handled exactly as it would be
from an idle router — so a toolbar-binding key triggers its binding. -/
theorem claim_C6 (env : Env) (ev : KeyEvent) (now : ℕ) (st : RouterState)
    (hed : ev.targetEditable = false) (hct : ev.ctrlKey = false) (hal : ev.altKey = false)
    (hmt : ev.metaKey = false) (hne : st.yankSequence ≠ [])
    (ht : YANK_SEQUENCE_TIMEOUT_MS < now - st.lastKeyTime) :
    handleKeyDown env ev now st =
      ((handleKeyDown env ev now { st with yankSequence := [] }).1,
       Effect.hideWhichKey :: (handleKeyDown env ev now { st with yankSequence := [] }).2) := by
  have hle : YANK_SEQUENCE_TIMEOUT_MS ≤ now - st.lastKeyTime := le_of_lt ht
  simp [handleKeyDown, hed, hct, hal, hmt, hne, hle]

/-- C6 witness: a stale `y` from 1000 ms followed by the Top View key
`3` at 3000 ms, handled as a fresh toolbar action after the reset. -/
theorem claim_C6_witness :
    ((⟨["y"], 1000, engineMm⟩ : RouterState).yankSequence ≠ [] ∧
     YANK_SEQUENCE_TIMEOUT_MS < 3000 - (⟨["y"], 1000, engineMm⟩ : RouterState).lastKeyTime) ∧
    handleKeyDown sampleEnv ⟨"3", false, false, false, false, false⟩ 3000
        ⟨["y"], 1000, engineMm⟩ =
      ((handleKeyDown sampleEnv ⟨"3", false, false, false, false, false⟩ 3000
          { (⟨["y"], 1000, engineMm⟩ : RouterState) with yankSequence := [] }).1,
       Effect.hideWhichKey ::
         (handleKeyDown sampleEnv ⟨"3", false, false, false, false, false⟩ 3000
           { (⟨["y"], 1000, engineMm⟩ : RouterState) with yankSequence := [] }).2) :=
  ⟨⟨by decide, by decide⟩,
   claim_C6 sampleEnv ⟨"3", false, false, false, false, false⟩ 3000
     ⟨["y"], 1000, engineMm⟩ rfl rfl rfl rfl (by decide) (by decide)⟩

/-- C9: when a camera-view binding is pressed and its button exists, the
reported toast is the plain label confirmation with the active flag, and
the whole outcome is identical whether or not the button frame carries
the active marker class. -/
theorem claim_C9 (env : Env) (f1 f2 : String → Bool) (ev : KeyEvent) (now : ℕ)
    (st : RouterState) (b : Binding)
    (hed : ev.targetEditable = false) (hct : ev.ctrlKey = false) (hal : ev.altKey = false)
    (hmt : ev.metaKey = false) (hseq : st.yankSequence = [])
    (hy : strLower ev.key ≠ "y") (hi : strLower ev.key ≠ "i")
    (hb : lookupBinding ((if ev.shiftKey then "shift+" else "") ++ strLower ev.key) = some b)
    (hview : selectorMatchesView b.selector = true)
    (hbtn : env.buttonPresent b.selector = true) :
    handleKeyDown { env with frameActive := f1 } ev now st
      = handleKeyDown { env with frameActive := f2 } ev now st ∧
    (handleKeyDown { env with frameActive := f1 } ev now st).2
      = [Effect.click b.selector, Effect.toast b.label true] := by
  have key : ∀ f : String → Bool,
      handleKeyDown { env with frameActive := f } ev now st
        = (st, [Effect.click b.selector, Effect.toast b.label true]) := by
    intro f
    simp [handleKeyDown, afterYank, hed, hct, hal, hmt, hseq, hy, hi, hb, hview, hbtn]
  rw [key f1, key f2]
  exact ⟨rfl, rfl⟩

/-- C9 witness: the Top View binding on key `3`, with the frame marker
class present in one run and absent in the other. -/
theorem claim_C9_witness :
    (strLower "3" ≠ "y" ∧
     lookupBinding ((if false then "shift+" else "") ++ strLower "3")
       = some ⟨"3", false, "input.tcv_button_top", "Top View"⟩ ∧
     selectorMatchesView "input.tcv_button_top" = true ∧
     sampleEnv.buttonPresent "input.tcv_button_top" = true) ∧
    (handleKeyDown { sampleEnv with frameActive := fun _ => true }
        ⟨"3", false, false, false, false, false⟩ 0 ⟨[], 0, engineMm⟩
      = handleKeyDown { sampleEnv with frameActive := fun _ => false }
        ⟨"3", false, false, false, false, false⟩ 0 ⟨[], 0, engineMm⟩ ∧
     (handleKeyDown { sampleEnv with frameActive := fun _ => true }
        ⟨"3", false, false, false, false, false⟩ 0 ⟨[], 0, engineMm⟩).2
      = [Effect.click "input.tcv_button_top", Effect.toast "Top View" true]) :=
  ⟨⟨by decide, by decide, by decide, rfl⟩,
   claim_C9 sampleEnv (fun _ => true) (fun _ => false)
     ⟨"3", false, false, false, false, false⟩ 0 ⟨[], 0, engineMm⟩
     ⟨"3", false, "input.tcv_button_top", "Top View"⟩
     rfl rfl rfl rfl rfl (by decide) (by decide) (by decide) (by decide) rfl⟩

/-- C10: Shift+I while the unit is mm (idle router, no modifiers, target
not editable) leaves the whole router state — unit settings, both cell
caches and every cell — unchanged, and its only effect is the
non-emphasis toast telling the user to switch to inches first. -/
theorem claim_C10 (env : Env) (ev : KeyEvent) (now : ℕ) (st : RouterState)
    (hed : ev.targetEditable = false) (hct : ev.ctrlKey = false) (hal : ev.altKey = false)
    (hmt : ev.metaKey = false) (hseq : st.yankSequence = [])
    (hkey : strLower ev.key = "i") (hshift : ev.shiftKey = true)
    (hunit : st.engine.currentUnit = "mm") :
    handleKeyDown env ev now st
      = (st, [Effect.toast "Switch to inches first (press I)" false]) := by
  simp [handleKeyDown, afterYank, hed, hct, hal, hmt, hseq, hkey, hshift, hunit]

/-- C10 witness: Shift+I pressed on an idle router in mm mode. -/
theorem claim_C10_witness :
    ((⟨[], 0, engineMm⟩ : RouterState).yankSequence = [] ∧
     strLower "I" = "i" ∧ engineMm.currentUnit = "mm") ∧
    handleKeyDown sampleEnv ⟨"I", true, false, false, false, false⟩ 0 ⟨[], 0, engineMm⟩
      = (⟨[], 0, engineMm⟩,
         [Effect.toast "Switch to inches first (press I)" false]) :=
  ⟨⟨rfl, by decide, rfl⟩,
   claim_C10 sampleEnv ⟨"I", true, false, false, false, false⟩ 0 ⟨[], 0, engineMm⟩
     rfl rfl rfl rfl rfl (by decide) rfl rfl⟩

end Content
